import Mathlib

/-!
Verification of the guidance template interpreter's generation layer.

The definitions below are shallow embeddings of `src/guidance/library/_gen.py`
and `src/guidance/llms/_openai.py`.  Strings are Lean strings, Python lists are
Lean lists, Python `None` is `Option.none`, floating point temperatures are
modelled as rationals, and the mutable variable store is passed explicitly.
-/

namespace Guidance

/-- Single apostrophe character, built from its code point. -/
def sq : String := String.singleton (Char.ofNat 39)

/-- Literal two open braces. -/
def lbb : String := "\x7b\x7b"

/-- Literal two close braces. -/
def rbb : String := "\x7d\x7d"

/-- Python `s.startswith(p)`, computed on character lists. -/
def strStarts (s p : String) : Bool := p.toList.isPrefixOf s.toList

/-- Python `s.endswith(p)`, computed on character lists. -/
def strEnds (s p : String) : Bool := p.toList.isSuffixOf s.toList

/-- Quote delimiters tried in order by gen (`_gen.py` line 80). -/
def quoteTypes : List String := [sq ++ sq ++ sq, "\"\"\"", "```", "\"", sq, "`"]

/-- Quote detection of `_gen.py` lines 80-84: the first quote delimiter that the
following text starts with and the preceding text ends with. -/
def quoteStop (nextText prevText : String) : Option String :=
  quoteTypes.find? (fun q => strStarts nextText q && strEnds prevText q)

/-- Role names of the alternation in the regex at `_gen.py` line 89. -/
def roleNames : List String := ["user", "assistant", "system", "role"]

/-- Match of the anchored role-closing regex at `_gen.py` lines 88-90
(two open braces, optional tilde, slash, a role name, optional tilde, two close
braces); returns the captured role name.  The role names start with pairwise
distinct characters, so at most one alternative can match. -/
def roleMatch (s : String) : Option String :=
  if strStarts s lbb then
    let s1 := s.drop 2
    let s2 := if strStarts s1 "~" then s1.drop 1 else s1
    if strStarts s2 "/" then
      let s3 := s2.drop 1
      roleNames.find? (fun r => strStarts s3 (r ++ rbb) || strStarts s3 (r ++ "~" ++ rbb))
    else none
  else none

/-- Python regex word character (ASCII part of backslash-w). -/
def isWordChar (c : Char) : Bool := c.isAlphanum || c == '_'

/-- Whether the regex piece "one or more non-gt characters followed by gt" can
match a (proper) prefix of the given characters. -/
def xmlTailOk : List Char → Bool
  | [] => false
  | c :: rest => c != '>' && rest.contains '>'

/-- Greedy backtracking for capture group one of the XML regex at `_gen.py`
line 95: the group takes the longest word-character run that still lets the
rest of the pattern match, and must stay non-empty. -/
def xmlTry (cs : List Char) : Nat → Option (List Char)
  | 0 => none
  | n + 1 => if xmlTailOk (cs.drop (n + 1)) then some (cs.take (n + 1)) else xmlTry cs n

/-- Match of the regex at `_gen.py` line 95 against the start of the string,
returning capture group one. -/
def xmlMatch (s : String) : Option String :=
  match s.toList with
  | c :: rest =>
    if c == '<' then (xmlTry rest ((rest.takeWhile isWordChar).length)).map (fun g => String.mk g)
    else none
  | [] => none

/-- XML branch of stop inference (`_gen.py` lines 94-99): on a regex match the
closing tag for group one is used only when the following text itself starts
with that closing tag. -/
def xmlStop (nextText : String) : Option String :=
  match xmlMatch nextText with
  | some g =>
    let endTag := "</" ++ g ++ ">"
    if strStarts nextText endTag then some endTag else none
  | none => none

/-- Stop inference of `_gen.py` lines 67-108.  Inputs are the explicit stop
argument, the texts of the next, previous and next-next parse nodes (none for
an absent node), and the model's role-end mapping.  Inference only runs when no
explicit stop is given; an empty final stop is coerced to none (line 107). -/
def inferStop (stop0 : Option String) (nextNodeText prevNodeText nextNextNodeText : Option String)
    (roleEnd : String → String) : Option String :=
  let nextText0 := nextNodeText.getD ""
  let prevText := prevNodeText.getD ""
  let nextText :=
    match nextNextNodeText with
    | some nn =>
      if strStarts nn (lbb ++ "~") then
        let nt := String.mk (nextText0.toList.dropWhile Char.isWhitespace)
        if nt = "" then nn else nt
      else nextText0
    | none => nextText0
  let s1 :=
    match stop0 with
    | some s => some s
    | none => quoteStop nextText prevText
  let s2 :=
    match s1 with
    | some s => some s
    | none => (roleMatch nextText).map roleEnd
  let s3 :=
    match s2 with
    | some s => some s
    | none => xmlStop nextText
  let s4 := s3.getD nextText
  if s4 = "" then none else some s4

theorem xmlTry_spec (cs : List Char) :
    ∀ n, n ≤ (cs.takeWhile isWordChar).length → ∀ g, xmlTry cs n = some g →
      ∃ m, 1 ≤ m ∧ m ≤ (cs.takeWhile isWordChar).length ∧ g = cs.take m := by
  intro n
  induction n with
  | zero => intro _ g h; simp [xmlTry] at h
  | succ k ih =>
    intro hle g h
    rw [xmlTry] at h
    split at h
    · exact ⟨k + 1, Nat.succ_le_succ (Nat.zero_le k), hle, (Option.some_inj.mp h).symm⟩
    · exact ih (Nat.le_of_succ_le hle) g h

theorem take_head_word (cs : List Char) (m : Nat) (h1 : 1 ≤ m)
    (h2 : m ≤ (cs.takeWhile isWordChar).length) :
    ∃ c t, cs = c :: t ∧ isWordChar c = true := by
  cases cs with
  | nil => simp at h2; omega
  | cons c rest =>
    refine ⟨c, rest, rfl, ?_⟩
    by_cases hw : isWordChar c
    · exact hw
    · rw [List.takeWhile_cons_of_neg (by simpa using hw)] at h2
      simp at h2
      omega

/-- The XML branch of stop inference never fires: a successful regex match
forces the character after the opening angle bracket to be a word character,
while the closing-tag check requires it to be a slash. -/
theorem xmlStop_none (s : String) : xmlStop s = none := by
  unfold xmlStop
  cases hm : xmlMatch s with
  | none => rfl
  | some g =>
    have hfalse : strStarts s ("</" ++ g ++ ">") = false := by
      unfold xmlMatch at hm
      cases hs : s.toList with
      | nil => rw [hs] at hm; exact absurd hm (by simp)
      | cons c rest =>
        rw [hs] at hm
        by_cases hc : c = '<'
        · subst hc
          simp only [beq_self_eq_true, if_true] at hm
          rcases Option.map_eq_some'.mp hm with ⟨gl, hgl, hgmk⟩
          subst hgmk
          rcases xmlTry_spec rest _ (le_refl _) gl hgl with ⟨m, hm1, hm2, hgm⟩
          rcases take_head_word rest m hm1 hm2 with ⟨r0, rest', hrest, hword⟩
          have hlist : ("</" ++ String.mk gl ++ ">").toList = '<' :: '/' :: (gl ++ [ '>' ]) := by
            rfl
          unfold strStarts
          rw [hlist, hs, hrest]
          simp [List.isPrefixOf]
          intro h
          rw [← h] at hword
          exact absurd hword (by decide)
        · simp [hc] at hm
    simp only [hfalse, Bool.false_eq_true, if_false]

/-- C1: the claimed stop-inference priority order is wrong at rule (3).  The
XML branch of the code can never produce a stop string (first conjunct), so on
a following text that is an opening tag immediately followed by its matching
closing tag the code falls through to rule (4) and uses the raw following text
as the stop, not the closing tag claimed by the spec. -/
theorem thmC1 :
    (∀ s, xmlStop s = none) ∧
      inferStop none (some "<tag></tag>") (some "") none (fun r => "<END_" ++ r ++ ">") =
        some "<tag></tag>" := by
  refine ⟨xmlStop_none, ?_⟩
  rfl

/-! Model-Call Session (`src/guidance/llms/_openai.py`, OpenAISession.call,
lines 258-334).  One completion choice of a provider response. -/

/-- One choice of a provider response: generated text and its per-token
log-probability records (records kept opaque as strings). -/
structure Choice where
  text : String
  lps : List String
  deriving DecidableEq

/-- A provider response: a list of choices. -/
structure Response where
  choices : List Choice
  deriving DecidableEq

/-- The call parameters that reach the cache-key computation.  The parameters
stop_regex, pattern and token_healing are rejected by assertions before any
cache lookup (lines 262, 271-272), so calls reaching this point carry them as
None and they are omitted here; temperature is the value after the
None-to-default substitution of lines 265-266. -/
structure CallArgs where
  prompt : String
  stop : Option String
  temperature : ℚ
  n : Nat
  maxTokens : Nat
  lps : Option Nat
  topP : ℚ
  echo : Bool
  stream : Bool
  cacheSeed : Nat
  caching : Option Bool
  deriving DecidableEq

/-- A cache entry value: a whole response for a non-streamed call, or the
fully drained list of stream chunks for a streamed call. -/
inductive CacheVal where
  | single (r : Response)
  | chunkList (rs : List Response)
  deriving DecidableEq

/-- Modelled from the spec: the deterministic cache key of LLMSession._cache_key
(`_llm.py`, not under src/) is "a stable hash of the full set of call
parameters"; it is modelled as the parameter record itself.  That the key
depends on the stream flag is forced by the code under src/: lines 278-282
recompute the key with stream set to False, which would be pointless otherwise. -/
abbrev CacheKey := CallArgs

/-- Lookup in the class-level cache, modelled as an association list. -/
def cacheGet (c : List (CacheKey × CacheVal)) (k : CacheKey) : Option CacheVal :=
  (c.find? (fun p => decide (p.1 = k))).map (fun p => p.2)

/-- Process-wide session state: the durable cache and the number of provider
invocations performed so far. -/
structure SessionState where
  cache : List (CacheKey × CacheVal)
  calls : Nat
  deriving DecidableEq

/-- Wrapping of a cached value for a streamed request (lines 329-332): a
cached list is returned as is, anything else is wrapped in a one-element
list. -/
def wrapStream : CacheVal → CacheVal
  | .chunkList rs => .chunkList rs
  | .single r => .chunkList [r]

/-- One invocation of OpenAISession.call (lines 258-334), minus rate limiting
and retry, which are modelled separately.  The provider is a function of the
invocation index, so its successive results may differ.  A streamed provider
call is modelled as already drained: stream_then_save (lines 146-152) stores
the full chunk list under the key once the generator is exhausted, and the
call's value is that chunk list. -/
def sessionCall (args : CallArgs) (llmCaching : Bool) (provider : Nat → CallArgs → CacheVal)
    (st : SessionState) : CacheVal × SessionState :=
  let keyF : CallArgs := { args with stream := false }
  let key := if (cacheGet st.cache args).isNone && args.stream && (cacheGet st.cache keyF).isSome
    then keyF else args
  let bypass := (!(args.caching == some true) && !llmCaching) || (args.caching == some false)
  if (cacheGet st.cache key).isNone || bypass then
    let out := provider st.calls args
    let cache1 := (key, out) :: st.cache
    let st1 : SessionState := { cache := cache1, calls := st.calls + 1 }
    if args.stream then
      (out, st1)
    else
      ((cacheGet cache1 key).getD out, st1)
  else
    let v := (cacheGet st.cache key).getD (.single ⟨[]⟩)
    if args.stream then (wrapStream v, st) else (v, st)

/-- Modelled from the spec: a session-call variant whose cache key is
"computed over all parameters excluding the stream flag", word for word from
the claim; used only to compare with the behaviour of the code. -/
def sessionCallSpecKey (args : CallArgs) (llmCaching : Bool)
    (provider : Nat → CallArgs → CacheVal) (st : SessionState) : CacheVal × SessionState :=
  let key : CallArgs := { args with stream := false }
  let bypass := (!(args.caching == some true) && !llmCaching) || (args.caching == some false)
  if (cacheGet st.cache key).isNone || bypass then
    let out := provider st.calls args
    let cache1 := (key, out) :: st.cache
    let st1 : SessionState := { cache := cache1, calls := st.calls + 1 }
    if args.stream then
      (out, st1)
    else
      ((cacheGet cache1 key).getD out, st1)
  else
    let v := (cacheGet st.cache key).getD (.single ⟨[]⟩)
    if args.stream then (wrapStream v, st) else (v, st)

theorem cacheGet_cons (k' : CacheKey) (v : CacheVal) (c : List (CacheKey × CacheVal))
    (k : CacheKey) :
    cacheGet ((k', v) :: c) k = if k' = k then some v else cacheGet c k := by
  by_cases h : k' = k <;> simp [cacheGet, List.find?, h]

/-- C2: with caching enabled, two session invocations with identical parameters
perform at most one provider call in total; the second invocation returns the
first invocation's result unchanged and leaves the session state (cache and
provider-call count) untouched.  For a streamed call the first invocation is
modelled as fully drained, and the provider is assumed to honour the stream
flag by returning a chunk list. -/
theorem thmC2 (args : CallArgs) (llmCaching : Bool) (provider : Nat → CallArgs → CacheVal)
    (st : SessionState)
    (hcache : args.caching = some true)
    (hstream : args.stream = true → ∀ i a, ∃ rs, provider i a = CacheVal.chunkList rs) :
    (sessionCall args llmCaching provider ((sessionCall args llmCaching provider st).2)).2.calls
        ≤ st.calls + 1 ∧
      (sessionCall args llmCaching provider ((sessionCall args llmCaching provider st).2)).1
        = (sessionCall args llmCaching provider st).1 ∧
      (sessionCall args llmCaching provider ((sessionCall args llmCaching provider st).2)).2
        = (sessionCall args llmCaching provider st).2 := by
  have hbp : ((!(args.caching == some true) && !llmCaching) || (args.caching == some false))
      = false := by
    simp [hcache]
  rcases h1 : cacheGet st.cache args with _ | v
  · -- first lookup on the stream-inclusive key misses
    rcases hsF : cacheGet st.cache { args with stream := false } with _ | vF
    · -- full miss: the provider is called once and the result cached
      have e1 : sessionCall args llmCaching provider st =
          (provider st.calls args,
            ⟨(args, provider st.calls args) :: st.cache, st.calls + 1⟩) := by
        cases hstr : args.stream <;>
          simp [sessionCall, h1, hsF, hstr, hbp, cacheGet_cons]
      have e2 : sessionCall args llmCaching provider
          (⟨(args, provider st.calls args) :: st.cache, st.calls + 1⟩ : SessionState) =
          ((if args.stream then wrapStream (provider st.calls args)
            else provider st.calls args),
            ⟨(args, provider st.calls args) :: st.cache, st.calls + 1⟩) := by
        cases hstr : args.stream <;>
          simp [sessionCall, hstr, hbp, cacheGet_cons]
      rw [e1, e2]
      refine ⟨le_refl _, ?_, rfl⟩
      cases hstr : args.stream
      · simp
      · rcases hstream hstr st.calls args with ⟨rs, hrs⟩
        simp [hrs, wrapStream]
    · -- a non-streamed entry may satisfy a streamed request
      cases hstr : args.stream
      · -- non-streamed request: plain miss on its own key, one provider call
        have e1 : sessionCall args llmCaching provider st =
            (provider st.calls args,
              ⟨(args, provider st.calls args) :: st.cache, st.calls + 1⟩) := by
          simp [sessionCall, h1, hsF, hstr, hbp, cacheGet_cons]
        have e2 : sessionCall args llmCaching provider
            (⟨(args, provider st.calls args) :: st.cache, st.calls + 1⟩ : SessionState) =
            (provider st.calls args,
              ⟨(args, provider st.calls args) :: st.cache, st.calls + 1⟩) := by
          simp [sessionCall, hstr, hbp, cacheGet_cons]
        rw [e1, e2]
        exact ⟨le_refl _, rfl, rfl⟩
      · -- streamed request served from the stream-excluding fallback key
        have e1 : sessionCall args llmCaching provider st = (wrapStream vF, st) := by
          simp [sessionCall, h1, hsF, hstr, hbp]
        rw [e1, e1]
        exact ⟨Nat.le_succ _, rfl, rfl⟩
  · -- direct cache hit: no provider call at all
    have e1 : sessionCall args llmCaching provider st =
        ((if args.stream then wrapStream v else v), st) := by
      cases hstr : args.stream <;> simp [sessionCall, h1, hstr, hbp]
    rw [e1, e1]
    exact ⟨Nat.le_succ _, rfl, rfl⟩

/-- Witness for C2 at a concrete non-streamed call. -/
theorem thmC2_witness :
    (let args : CallArgs :=
      ⟨"p", none, 0, 1, 10, none, 1, false, false, 0, some true⟩
    let provider : Nat → CallArgs → CacheVal := fun _ _ => .single ⟨[⟨" Sue", []⟩]⟩
    let st : SessionState := ⟨[], 0⟩
    (sessionCall args true provider ((sessionCall args true provider st).2)).2.calls ≤ 1 ∧
      (sessionCall args true provider ((sessionCall args true provider st).2)).1
        = (sessionCall args true provider st).1 ∧
      (sessionCall args true provider ((sessionCall args true provider st).2)).2
        = (sessionCall args true provider st).2) :=
  thmC2 _ _ _ _ rfl (fun h => by simp at h)

/-- C6 (amended): the cache key includes the stream flag, but a streamed
request whose own key misses falls back to the key recomputed with stream set
to False (lines 278-282).  Consequently (i) a cached non-streamed result
satisfies a later streamed request with no provider call, (ii) a non-streamed
request whose own key misses always performs a provider call, whatever
streamed entries the cache holds, and (iii) a streamed request served from the
cache always yields a list of chunks. -/
theorem thmC6 (args : CallArgs) (llmCaching : Bool) (provider : Nat → CallArgs → CacheVal)
    (st : SessionState) (hcache : args.caching = some true) :
    (∀ vF, args.stream = true → cacheGet st.cache args = none →
      cacheGet st.cache { args with stream := false } = some vF →
      sessionCall args llmCaching provider st = (wrapStream vF, st)) ∧
      (args.stream = false → cacheGet st.cache args = none →
        (sessionCall args llmCaching provider st).2.calls = st.calls + 1) ∧
      (∀ v, args.stream = true → cacheGet st.cache args = some v →
        (∃ rs, (sessionCall args llmCaching provider st).1 = .chunkList rs) ∧
          (sessionCall args llmCaching provider st).2 = st) := by
  have hbp : ((!(args.caching == some true) && !llmCaching) || (args.caching == some false))
      = false := by
    simp [hcache]
  refine ⟨?_, ?_, ?_⟩
  · intro vF hstr h1 hsF
    simp [sessionCall, h1, hsF, hstr, hbp]
  · intro hstr h1
    rcases hsF : cacheGet st.cache { args with stream := false } with _ | vF <;>
      simp [sessionCall, h1, hsF, hstr, hbp]
  · intro v hstr h1
    have e1 : sessionCall args llmCaching provider st = (wrapStream v, st) := by
      simp [sessionCall, h1, hstr, hbp]
    rw [e1]
    cases v with
    | single r => exact ⟨⟨[r], rfl⟩, rfl⟩
    | chunkList rs => exact ⟨⟨rs, rfl⟩, rfl⟩

/-- C6 counterexample: the key does not exclude the stream flag.  A streamed
call followed by a non-streamed call with identical other parameters performs
two provider calls under the code, whereas the session variant whose key is
literally computed excluding the stream flag (sessionCallSpecKey, the claim's
wording) would perform only one. -/
theorem ceC6 :
    (let argsS : CallArgs := ⟨"p", none, 0, 1, 10, none, 1, false, true, 0, some true⟩
    let argsN : CallArgs := { argsS with stream := false }
    let provider : Nat → CallArgs → CacheVal :=
      fun i _ => if i = 0 then .chunkList [⟨[⟨"a", []⟩]⟩] else .single ⟨[⟨"b", []⟩]⟩
    let st0 : SessionState := ⟨[], 0⟩
    (sessionCall argsN true provider ((sessionCall argsS true provider st0).2)).2.calls = 2 ∧
      (sessionCallSpecKey argsN true provider
        ((sessionCallSpecKey argsS true provider st0).2)).2.calls = 1) := by
  exact ⟨rfl, rfl⟩

/-- Witness for C6: a streamed request served without a provider call from a
non-streamed cache entry, yielding the wrapped chunk list. -/
theorem thmC6_witness :
    (let args : CallArgs := ⟨"p", none, 0, 1, 10, none, 1, false, true, 0, some true⟩
    let st : SessionState :=
      ⟨[({ args with stream := false }, .single ⟨[⟨"a", []⟩]⟩)], 3⟩
    sessionCall args true (fun _ _ => .single ⟨[]⟩) st
      = (.chunkList [⟨[⟨"a", []⟩]⟩], st)) := by
  exact (thmC6 ⟨"p", none, 0, 1, 10, none, 1, false, true, 0, some true⟩ true
    (fun _ _ => .single ⟨[]⟩)
    ⟨[(⟨"p", none, 0, 1, 10, none, 1, false, false, 0, some true⟩,
      .single ⟨[⟨"a", []⟩]⟩)], 3⟩ rfl).1 (.single ⟨[⟨"a", []⟩]⟩) rfl rfl rfl

/-! Rate limiter (`_openai.py` lines 157-172 and 287-289). -/

/-- Pruning of count_calls (lines 168-170): drop timestamps strictly older
than sixty seconds before the given instant. -/
def pruneCalls (now : ℚ) (hist : List ℚ) : List ℚ :=
  hist.dropWhile (fun t => decide (t < now - 60))

/-- count_calls (lines 164-172): the length of the pruned deque. -/
def countCalls (now : ℚ) (hist : List ℚ) : Nat := (pruneCalls now hist).length

/-- Number of recorded timestamps inside the rolling window between w and
w plus sixty, both ends included (the window shape count_calls keeps). -/
def windowCount (w : ℚ) (hist : List ℚ) : Nat :=
  (hist.filter (fun t => decide (w ≤ t) && decide (t ≤ w + 60))).length

/-- Reachable rate-limiter states: the deque of timestamps as the code keeps
it, paired with the full log of every recorded attempt.  A call is admitted
exactly when the while loop of lines 288-289 exits, i.e. the pruned count does
not strictly exceed max_calls_per_min; add_call (lines 158-162) then records
one timestamp, taken no earlier than every previous one. -/
inductive RLTrace (maxC : Nat) : List ℚ → List ℚ → Prop
  | nil : RLTrace maxC [] []
  | step (deque full : List ℚ) (now : ℚ)
      (hmono : ∀ t ∈ full, t ≤ now)
      (hadm : countCalls now deque ≤ maxC)
      (h : RLTrace maxC deque full) :
      RLTrace maxC (pruneCalls now deque ++ [now]) (full ++ [now])

theorem rlTrace_decomp (maxC : Nat) (deque full : List ℚ) (h : RLTrace maxC deque full) :
    ∃ dropped, full = dropped ++ deque ∧ ∀ t ∈ dropped, ∃ u ∈ full, t < u - 60 := by
  induction h with
  | nil => exact ⟨[], rfl, by simp⟩
  | step deque full now hmono hadm hprev ih =>
    rcases ih with ⟨dropped, hfull, hold⟩
    refine ⟨dropped ++ deque.takeWhile (fun t => decide (t < now - 60)), ?_, ?_⟩
    · rw [hfull, pruneCalls]
      simp only [List.append_assoc]
      rw [← List.append_assoc (deque.takeWhile _), List.takeWhile_append_dropWhile]
    · intro t ht
      rcases List.mem_append.mp ht with h1 | h2
      · rcases hold t h1 with ⟨u, hu, hlt⟩
        exact ⟨u, List.mem_append_left _ hu, hlt⟩
      · refine ⟨now, by simp, ?_⟩
        have := List.mem_takeWhile_imp h2
        simpa using this

/-- C4 (amended): the session blocks only while the pruned count strictly
exceeds the ceiling, so along every reachable trace at most ceiling-plus-one
attempts are recorded inside any rolling sixty-second window. -/
theorem thmC4 (maxC : Nat) (deque full : List ℚ) (h : RLTrace maxC deque full) (w : ℚ) :
    windowCount w full ≤ maxC + 1 := by
  induction h with
  | nil => simp [windowCount]
  | step deque full now hmono hadm hprev ih =>
    by_cases hin : w ≤ now ∧ now ≤ w + 60
    · rcases rlTrace_decomp _ _ _ hprev with ⟨dropped, hfull, hold⟩
      have hwf : windowCount w full ≤ maxC := by
        rw [hfull, windowCount, List.filter_append]
        have hdropped :
            dropped.filter (fun t => decide (w ≤ t) && decide (t ≤ w + 60)) = [] := by
          rw [List.filter_eq_nil_iff]
          intro t ht
          rcases hold t ht with ⟨u, hu, hlt⟩
          have hun : u ≤ now := hmono u (hfull ▸ hu)
          simp only [Bool.and_eq_true, decide_eq_true_eq, not_and]
          intro hwt
          have : t < w := by linarith [hin.2]
          linarith
        rw [hdropped, List.nil_append]
        calc (deque.filter (fun t => decide (w ≤ t) && decide (t ≤ w + 60))).length
            ≤ countCalls now deque := by
              rw [countCalls, pruneCalls]
              conv_lhs => rw [← List.takeWhile_append_dropWhile
                (p := fun t => decide (t < now - 60)) (l := deque)]
              rw [List.filter_append, List.length_append]
              have htk : ((deque.takeWhile (fun t => decide (t < now - 60))).filter
                  (fun t => decide (w ≤ t) && decide (t ≤ w + 60))) = [] := by
                rw [List.filter_eq_nil_iff]
                intro t ht
                have hlt := List.mem_takeWhile_imp ht
                simp only [decide_eq_true_eq] at hlt
                simp only [Bool.and_eq_true, decide_eq_true_eq, not_and]
                intro hwt
                linarith [hin.2]
              rw [htk]
              simpa using List.length_filter_le _ _
          _ ≤ maxC := hadm
      rw [windowCount, List.filter_append, List.length_append]
      have h1 : windowCount w full ≤ maxC := hwf
      rw [windowCount] at h1
      have h2 : (([now] : List ℚ).filter
          (fun t => decide (w ≤ t) && decide (t ≤ w + 60))).length ≤ 1 := by
        simpa using List.length_filter_le _ [now]
      omega
    · rw [windowCount, List.filter_append, List.length_append]
      have hb : (decide (w ≤ now) && decide (now ≤ w + 60)) = false := by
        by_cases h1 : w ≤ now
        · by_cases h2 : now ≤ w + 60
          · exact absurd ⟨h1, h2⟩ hin
          · simp [h2]
        · simp [h1]
      have h2 : (([now] : List ℚ).filter
          (fun t => decide (w ≤ t) && decide (t ≤ w + 60))).length = 0 := by
        simp [List.filter_cons, hb]
      rw [windowCount] at ih
      omega

/-- Reachable two-call trace at ceiling one: the second call is admitted one
second after the first because the strict comparison of line 288 lets a count
equal to the ceiling through. -/
theorem rlTrace01 : RLTrace 1 [(0 : ℚ), 1] [(0 : ℚ), 1] := by
  have h0 : RLTrace 1 [(0 : ℚ)] [(0 : ℚ)] := by
    have h := @RLTrace.step 1 [] [] 0 (by simp) (by simp [countCalls, pruneCalls]) RLTrace.nil
    simpa [pruneCalls] using h
  have h := @RLTrace.step 1 [(0 : ℚ)] [(0 : ℚ)] 1 (by norm_num)
    (by norm_num [countCalls, pruneCalls, List.dropWhile]) h0
  have e : pruneCalls 1 [(0 : ℚ)] = [(0 : ℚ)] := by
    norm_num [pruneCalls, List.dropWhile]
  rw [e] at h
  simpa using h

/-- C4 counterexample: with ceiling one, two admitted calls both land inside
the window starting at zero, so the claimed at-most-ceiling bound fails. -/
theorem ceC4 : RLTrace 1 [(0 : ℚ), 1] [(0 : ℚ), 1] ∧ 1 < windowCount 0 [(0 : ℚ), 1] := by
  refine ⟨rlTrace01, ?_⟩
  norm_num [windowCount, List.filter]

/-- Witness for C4 on the concrete two-call trace. -/
theorem thmC4_witness : windowCount 0 [(0 : ℚ), 1] ≤ 2 :=
  thmC4 1 _ _ rlTrace01 0

/-! Retry loop (`_openai.py` lines 291-321). -/

/-- One provider attempt outcome: a response, a transient rate-limit
rejection (openai.error.RateLimitError), or any other provider error. -/
inductive ProvOut where
  | success (r : Response)
  | rateLimit
  | otherError (e : String)
  deriving DecidableEq

/-- Result of the retry loop: a response after some attempts, the
retry-exhausted failure of line 321, or a propagated provider error. -/
inductive CallOutcome where
  | ok (r : Response) (attempts : Nat)
  | retryExhausted (attempts : Nat)
  | raised (e : String) (attempts : Nat)
  deriving DecidableEq

/-- Retry loop of lines 291-321.  The attempt index i is the fail counter so
far; only RateLimitError is caught, each failure increments the counter, and
the loop raises once the counter strictly exceeds max_retries.  The fuel
argument exists only for termination; sessionRetry supplies enough fuel that
the zero case is never reached. -/
def goRetry (provider : Nat → ProvOut) (maxRetries : Nat) : Nat → Nat → CallOutcome
  | i, 0 => .retryExhausted i
  | i, fuel + 1 =>
    match provider i with
    | .success r => .ok r (i + 1)
    | .otherError e => .raised e (i + 1)
    | .rateLimit =>
      if i + 1 > maxRetries then .retryExhausted (i + 1)
      else goRetry provider maxRetries (i + 1) fuel

/-- The retry behaviour of one un-cached session call. -/
def sessionRetry (provider : Nat → ProvOut) (maxRetries : Nat) : CallOutcome :=
  goRetry provider maxRetries 0 (maxRetries + 1)

theorem goRetry_skip (provider : Nat → ProvOut) (maxRetries : Nat) :
    ∀ k i, (∀ j, j < k → provider (i + j) = .rateLimit) → i + k ≤ maxRetries →
      goRetry provider maxRetries i (maxRetries + 1 - i)
        = goRetry provider maxRetries (i + k) (maxRetries + 1 - (i + k)) := by
  intro k
  induction k with
  | zero => intro i _ _; rfl
  | succ k ih =>
    intro i hrl hle
    have h0 : provider i = .rateLimit := by simpa using hrl 0 (Nat.succ_pos k)
    have hi : i + 1 ≤ maxRetries := by omega
    have hfuel : maxRetries + 1 - i = (maxRetries + 1 - (i + 1)) + 1 := by omega
    rw [hfuel, goRetry, h0]
    rw [if_neg (by omega)]
    have hrl1 : ∀ j, j < k → provider (i + 1 + j) = .rateLimit := by
      intro j hj
      have := hrl (j + 1) (by omega)
      rwa [show i + (j + 1) = i + 1 + j by omega] at this
    have := ih (i + 1) hrl1 (by omega)
    rwa [show i + 1 + k = i + (k + 1) by omega] at this

/-- C5: on rate-limit rejections the session retries with the counter
incremented each time; after the counter exceeds max_retries it fails with the
retry-exhausted error after exactly max_retries plus one attempts; a success or
any other provider error at attempt k ends the loop immediately with that
outcome. -/
theorem thmC5 (provider : Nat → ProvOut) (maxRetries : Nat) :
    (∀ r k, k ≤ maxRetries → (∀ j, j < k → provider j = .rateLimit) →
      provider k = .success r → sessionRetry provider maxRetries = .ok r (k + 1)) ∧
      ((∀ j, j ≤ maxRetries → provider j = .rateLimit) →
        sessionRetry provider maxRetries = .retryExhausted (maxRetries + 1)) ∧
      (∀ e k, k ≤ maxRetries → (∀ j, j < k → provider j = .rateLimit) →
        provider k = .otherError e → sessionRetry provider maxRetries = .raised e (k + 1)) := by
  have hbase : ∀ k, k ≤ maxRetries → (∀ j, j < k → provider j = .rateLimit) →
      sessionRetry provider maxRetries = goRetry provider maxRetries k (maxRetries + 1 - k) := by
    intro k hk hrl
    have := goRetry_skip provider maxRetries k 0 (fun j hj => by simpa using hrl j hj)
      (by omega)
    simpa using this
  refine ⟨?_, ?_, ?_⟩
  · intro r k hk hrl hs
    rw [hbase k hk hrl]
    have hfuel : maxRetries + 1 - k = (maxRetries - k) + 1 := by omega
    rw [hfuel, goRetry, hs]
  · intro hrl
    rw [hbase maxRetries (le_refl _) (fun j hj => hrl j (Nat.le_of_lt hj))]
    have hfuel : maxRetries + 1 - maxRetries = 0 + 1 := by omega
    rw [hfuel, goRetry, hrl maxRetries (le_refl _)]
    rw [if_pos (by omega)]
  · intro e k hk hrl hs
    rw [hbase k hk hrl]
    have hfuel : maxRetries + 1 - k = (maxRetries - k) + 1 := by omega
    rw [hfuel, goRetry, hs]

/-- Witness for C5: one rate-limit failure followed by a success, with
max_retries two, ends in success after two attempts. -/
theorem thmC5_witness :
    sessionRetry (fun j => if j = 0 then .rateLimit else .success ⟨[]⟩) 2
      = .ok ⟨[]⟩ 2 :=
  (thmC5 (fun j => if j = 0 then .rateLimit else .success ⟨[]⟩) 2).1 ⟨[]⟩ 1
    (by omega)
    (fun j hj => by
      have hj0 : j = 0 := by omega
      subst hj0
      rfl)
    rfl

/-! Cache-seed policy (`_gen.py` lines 110-115). -/

/-- Cache-seed choice of lines 110-115: a temperature strictly above zero
consumes the current counter and increments it; otherwise the seed is zero and
the counter is untouched.  Returns the chosen seed and the new counter. -/
def chooseCacheSeed (temperature : ℚ) (seedCounter : Nat) : Nat × Nat :=
  if 0 < temperature then (seedCounter, seedCounter + 1) else (0, seedCounter)

/-- Seeds assigned to a run's successive gen calls with the given
temperatures, starting from the given counter value. -/
def runSeeds (temps : List ℚ) (c : Nat) : List Nat :=
  match temps with
  | [] => []
  | t :: ts => (chooseCacheSeed t c).1 :: runSeeds ts (chooseCacheSeed t c).2

theorem runSeeds_zero (temps : List ℚ) :
    ∀ c i, temps.getD i 1 = 0 → (runSeeds temps c).getD i 0 = 0 := by
  induction temps with
  | nil => intro c i h; simp [List.getD] at h
  | cons t ts ih =>
    intro c i h
    cases i with
    | zero =>
      simp [List.getD] at h
      simp [runSeeds, List.getD, chooseCacheSeed, h]
    | succ i =>
      simp only [List.getD_cons_succ] at h
      simpa [runSeeds, List.getD_cons_succ] using ih _ i h

theorem runSeeds_pos (temps : List ℚ) :
    ∀ c i, i < temps.length → 0 < temps.getD i 0 →
      (runSeeds temps c).getD i 0
        = c + ((temps.take i).filter (fun t => decide (0 < t))).length := by
  induction temps with
  | nil => intro c i h; simp at h
  | cons t ts ih =>
    intro c i hi h
    cases i with
    | zero =>
      simp only [List.getD_cons_zero] at h
      simp [runSeeds, List.getD, chooseCacheSeed, h]
    | succ i =>
      simp only [List.getD_cons_succ] at h
      simp only [List.length_cons, Nat.succ_lt_succ_iff] at hi
      by_cases ht : 0 < t
      · rw [show runSeeds (t :: ts) c = c :: runSeeds ts (c + 1) from by
          simp [runSeeds, chooseCacheSeed, ht]]
        rw [List.getD_cons_succ, ih (c + 1) i hi h, List.take_succ_cons, List.filter_cons]
        simp [ht]
        omega
      · rw [show runSeeds (t :: ts) c = 0 :: runSeeds ts c from by
          simp [runSeeds, chooseCacheSeed, ht]]
        rw [List.getD_cons_succ, ih c i hi h, List.take_succ_cons, List.filter_cons]
        simp [ht]

/-- C3: temperature-zero calls always use cache-seed zero; a temperature
strictly above zero consumes the current counter, whose value is the starting
counter plus the number of earlier above-zero calls of the run, so successive
above-zero calls get strictly increasing, pairwise distinct seeds. -/
theorem thmC3 (temps : List ℚ) (c : Nat) :
    (∀ i, temps.getD i 1 = 0 → (runSeeds temps c).getD i 0 = 0) ∧
      (∀ i, i < temps.length → 0 < temps.getD i 0 →
        (runSeeds temps c).getD i 0
          = c + ((temps.take i).filter (fun t => decide (0 < t))).length) ∧
      (∀ i j, i < j → j < temps.length → 0 < temps.getD i 0 → 0 < temps.getD j 0 →
        (runSeeds temps c).getD i 0 < (runSeeds temps c).getD j 0) := by
  refine ⟨runSeeds_zero temps c, runSeeds_pos temps c, ?_⟩
  intro i j hij hj hi0 hj0
  rw [runSeeds_pos temps c i (by omega) hi0, runSeeds_pos temps c j hj hj0]
  have hilen : i < temps.length := by omega
  have hstep : ((temps.take (i + 1)).filter (fun t => decide (0 < t))).length
      = ((temps.take i).filter (fun t => decide (0 < t))).length + 1 := by
    rw [List.take_succ, List.filter_append, List.length_append,
      List.getElem?_eq_getElem hilen]
    have hpos : (0 : ℚ) < temps[i] := by
      rwa [List.getD_eq_getElem?_getD, List.getElem?_eq_getElem hilen, Option.getD_some] at hi0
    simp [hpos]
  have hmono : ((temps.take (i + 1)).filter (fun t => decide (0 < t))).length
      ≤ ((temps.take j).filter (fun t => decide (0 < t))).length := by
    have hpre : temps.take (i + 1) <+: temps.take j := by
      have := List.take_take (i + 1) j temps
      rw [Nat.min_eq_left (by omega)] at this
      rw [← this]
      exact List.take_prefix _ _
    exact (hpre.filter _).length_le
  omega

/-- Witness for C3 at temperatures zero, one, two and starting counter five. -/
theorem thmC3_witness :
    (runSeeds [(0 : ℚ), 1, 2] 5).getD 1 0 < (runSeeds [(0 : ℚ), 1, 2] 5).getD 2 0 :=
  (thmC3 [(0 : ℚ), 1, 2] 5).2.2 1 2 (by omega) (by norm_num) (by norm_num) (by norm_num)

/-! gen's variable and output effects (`_gen.py` lines 58-59 and 140-232). -/

/-- A value held by the variable store: a string or a list of values. -/
inductive Value where
  | str (s : String)
  | list (vs : List Value)

/-- The variable store, an association list where the most recent binding
wins.  Modelled from the spec: the executor's get_variable and set_variable
(ProgramExecutor, not under src/) implement the store contract
"get(name, default)" and "set(name, value)" on a mapping shared by reference;
get returns the stored object itself, so a Python-level list mutation on a
present value is visible in the store, while a mutation on the returned
default of an absent name is not. -/
abbrev Store := List (String × Value)

/-- get_variable with a default of none. -/
def Store.get (st : Store) (k : String) : Option Value :=
  (st.find? (fun p => decide (p.1 = k))).map (fun p => p.2)

/-- set_variable. -/
def Store.set (st : Store) (k : String) (v : Value) : Store := (k, v) :: st

/-- get_variable(name, []) used as a list: the stored list when present, the
empty default otherwise. -/
def getListD (st : Store) (k : String) : List Value :=
  match Store.get st k with
  | some (.list vs) => vs
  | _ => []

/-- Whether the name is bound in the store. -/
def hasKey (st : Store) (k : String) : Bool := (Store.get st k).isSome

/-- Name of the companion log-probability variable (lines 150, 168, 172,
200, 206). -/
def lpName (name : String) : String := name ++ "_logprobs"

/-- The prefix of line 58, the empty string. -/
def genPre : String := ""

/-- The suffix of line 59, the empty string. -/
def genSuf : String := ""

/-- First choice of a response. -/
def choice0 (r : Response) : Choice := r.choices.headD ⟨"", []⟩

/-- Text of the first choice. -/
def respText (r : Response) : String := (choice0 r).text

/-- Log-probability records of the first choice. -/
def respLps (r : Response) : List String := (choice0 r).lps

/-- A list of log-probability records as a store value. -/
def strList (xs : List String) : Value := .list (xs.map .str)

/-- Control outcome of one gen evaluation: normal completion, the failed
assertion of line 184 on parse with hidden (the spec's ConfigurationError), or
the recursive re-parse and visit of lines 185-186 carrying the generated
text. -/
inductive GenResult where
  | done
  | configError
  | recurse (prog : String)
  deriving DecidableEq

/-- Effect of one gen evaluation: the final store, the fragments passed to
partial_output in order, and the control outcome. -/
structure GenOut where
  store : Store
  outs : List String
  result : GenResult

/-- Final effect of the n-equals-one branch of gen (lines 140-192) given the
full list of response chunks (a non-streamed call passes the one-element list
of line 145) and with cancellation never requested.  The value variable is
always set at lines 177-181.  The companion log-probability variable is set
inside the chunk loop (lines 161-172), hence only when at least one chunk
arrives; on the list-append path the in-place append of line 151 additionally
reaches a store that already binds the companion name. -/
def genN1 (name : String) (hidden parse listAppend lpOn : Bool) (resps : List Response)
    (st : Store) : GenOut :=
  let texts := resps.map respText
  let g := genPre ++ String.join texts ++ genSuf
  let lout := (resps.map respLps).flatten
  let st1 :=
    if listAppend then Store.set st name (.list (getListD st name ++ [.str g]))
    else Store.set st name (.str g)
  let st2 :=
    if lpOn then
      if listAppend then
        if hasKey st (lpName name) || !resps.isEmpty then
          Store.set st1 (lpName name) (.list (getListD st (lpName name) ++ [strList lout]))
        else st1
      else
        if !resps.isEmpty then Store.set st1 (lpName name) (strList lout) else st1
    else st1
  let res : GenResult :=
    if parse then (if hidden then .configError else .recurse g) else .done
  ⟨st2, [genPre] ++ texts ++ [genSuf], res⟩

/-- Marker block built by lines 220-231 when hidden is false; the printed flag
is the Python repr of "not hidden", always True in this branch.  The escape
function is _utils.escape_template_block (not under src/), kept abstract, and
the id argument is the fresh uuid hex of line 220. -/
def manyOut (esc : String → String) (id : String) (gvs : List String) : String :=
  let start := lbb ++ "!--GMARKERmany_generate_start_True_" ++ toString gvs.length
    ++ "$" ++ id ++ "$--" ++ rbb
  let body := (gvs.enum.map (fun p =>
    (if p.1 > 1 then "--" ++ rbb else "")
      ++ (if p.1 > 0 then
            lbb ++ "!--GMARKERmany_generate_True_" ++ toString p.1 ++ "$" ++ id
              ++ "$--" ++ rbb ++ lbb ++ "!--G " ++ esc p.2
          else p.2))).foldl (· ++ ·) ""
  start ++ body ++ "--" ++ rbb ++ lbb ++ "!--GMARKERmany_generate_end$" ++ id ++ "$--" ++ rbb

/-- Final effect of the n-greater-than-one branch of gen (lines 193-232).
Variable entries are written through set_variable only on the non-append path
(lines 202-208); on the append path (lines 196-201) the new entry is appended
in place to the list returned by get_variable, which reaches the store exactly
when the name was already bound.  Output is emitted only when hidden is
false (lines 210-231). -/
def genMulti (name : String) (hidden listAppend lpOn : Bool) (resp : Response)
    (esc : String → String) (id : String) (st : Store) : GenOut :=
  let gvs := resp.choices.map (fun c => genPre ++ c.text ++ genSuf)
  let st1 :=
    if listAppend then
      if hasKey st name then
        Store.set st name (.list (getListD st name ++ [.list (gvs.map .str)]))
      else st
    else Store.set st name (.list (gvs.map .str))
  let st2 :=
    if lpOn then
      if listAppend then
        if hasKey st (lpName name) then
          Store.set st1 (lpName name)
            (.list (getListD st (lpName name)
              ++ [.list (resp.choices.map (fun c => strList c.lps))]))
        else st1
      else
        Store.set st1 (lpName name) (.list (resp.choices.map (fun c => strList c.lps)))
    else st1
  ⟨st2, if hidden then [] else [manyOut esc id gvs], .done⟩

/-- The model-call result handed to gen: the chunk generator of a streamed
call, or the single whole response of a non-streamed call. -/
inductive ModelOut where
  | chunks (rs : List Response)
  | whole (r : Response)

/-- Argument record of gen (signature at lines 10-12), with lpOn the test
"logprobs is not None" after the inheritance of lines 130-131. -/
structure GenArgs where
  variableName : String
  n : Nat
  hidden : Bool
  parse : Bool
  listAppend : Bool
  lpOn : Bool

/-- Dispatch of gen on the completion count (lines 118-124, 140, 144-145 and
193-194): with n equal to one a non-streamed response is wrapped into a
one-chunk list (line 145); with n different from one a chunk list trips the
assertion of line 194, modelled as none. -/
def gen (a : GenArgs) (esc : String → String) (id : String) (mo : ModelOut) (st : Store) :
    Option GenOut :=
  match a.n == 1, mo with
  | true, .chunks rs => some (genN1 a.variableName a.hidden a.parse a.listAppend a.lpOn rs st)
  | true, .whole r => some (genN1 a.variableName a.hidden a.parse a.listAppend a.lpOn [r] st)
  | false, .whole r => some (genMulti a.variableName a.hidden a.listAppend a.lpOn r esc id st)
  | false, .chunks _ => none

theorem Store.get_set_same (st : Store) (k : String) (v : Value) :
    Store.get (Store.set st k v) k = some v := by
  simp [Store.get, Store.set, List.find?]

theorem Store.get_set_ne (st : Store) (k k' : String) (v : Value) (h : k ≠ k') :
    Store.get (Store.set st k v) k' = Store.get st k' := by
  simp [Store.get, Store.set, List.find?, h]

theorem getListD_set_list (st : Store) (k : String) (l : List Value) :
    getListD (Store.set st k (.list l)) k = l := by
  simp [getListD, Store.get_set_same]

theorem lpName_ne (name : String) : lpName name ≠ name := by
  intro h
  have hlen := congrArg String.length h
  rw [lpName, String.length_append] at hlen
  have h9 : ("_logprobs" : String).length = 9 := rfl
  omega

/-- C7: a gen call with n above one and hidden set stores under the target
variable the list of exactly n generated values in provider order, each being
the handler's prefix plus the completion text plus the suffix, and emits
nothing to the output buffer. -/
theorem thmC7 (name : String) (n : Nat) (hn : 1 < n) (r : Response)
    (hr : r.choices.length = n) (st : Store) (esc : String → String) (id : String)
    (lpOn : Bool) :
    gen ⟨name, n, true, false, false, lpOn⟩ esc id (.whole r) st
        = some (genMulti name true false lpOn r esc id st) ∧
      Store.get (genMulti name true false lpOn r esc id st).store name
        = some (.list (r.choices.map (fun c => .str (genPre ++ c.text ++ genSuf)))) ∧
      (r.choices.map (fun c => genPre ++ c.text ++ genSuf)).length = n ∧
      (genMulti name true false lpOn r esc id st).outs = [] := by
  have hne : (n == 1) = false := by
    simp only [beq_eq_false_iff_ne, ne_eq]
    omega
  refine ⟨by simp [gen, hne], ?_, by simpa using hr, ?_⟩
  · cases lpOn
    · simp [genMulti, Store.get_set_same, List.map_map]
    · simp [genMulti, Store.get_set_ne _ _ _ _ (lpName_ne name), Store.get_set_same,
        List.map_map]
  · cases lpOn <;> simp [genMulti]

/-- Witness for C7 with three completions. -/
theorem thmC7_witness :
    Store.get (genMulti "best" true false false
        (⟨[⟨"a", []⟩, ⟨"b", []⟩, ⟨"c", []⟩]⟩ : Response) (fun s => s) "i" []).store "best"
      = some (.list [.str (genPre ++ "a" ++ genSuf), .str (genPre ++ "b" ++ genSuf),
          .str (genPre ++ "c" ++ genSuf)]) ∧
    (genMulti "best" true false false
        (⟨[⟨"a", []⟩, ⟨"b", []⟩, ⟨"c", []⟩]⟩ : Response) (fun s => s) "i" []).outs = [] := by
  have h := thmC7 "best" 3 (by omega) ⟨[⟨"a", []⟩, ⟨"b", []⟩, ⟨"c", []⟩]⟩ rfl []
    (fun s => s) "i" false
  exact ⟨h.2.1, h.2.2.2⟩

/-- C8 (amended): with list append, an n-equals-one gen invocation always
appends exactly one entry (the generated string) to the list stored in the
variable, creating the list when the variable is absent, and repeated
invocations accumulate entries in invocation order; an n-above-one invocation
appends its entry (the list of completions) in place only when the variable
already holds a list, and when the variable is absent it leaves the variable
unset. -/
theorem thmC8 (name : String) (st : Store) :
    (∀ hidden parse lpOn resps,
      (Store.get st name = none ∨ ∃ vs, Store.get st name = some (.list vs)) →
      Store.get (genN1 name hidden parse true lpOn resps st).store name
        = some (.list (getListD st name
            ++ [.str (genPre ++ String.join (resps.map respText) ++ genSuf)]))) ∧
      (∀ r esc id hidden lpOn vs, Store.get st name = some (.list vs) →
        Store.get (genMulti name hidden true lpOn r esc id st).store name
          = some (.list (vs
              ++ [.list (r.choices.map (fun c => .str (genPre ++ c.text ++ genSuf)))]))) ∧
      (∀ r esc id hidden lpOn, Store.get st name = none →
        Store.get (genMulti name hidden true lpOn r esc id st).store name = none) ∧
      (∀ hidden parse resps1 resps2, Store.get st name = none →
        Store.get (genN1 name hidden parse true false resps2
            (genN1 name hidden parse true false resps1 st).store).store name
          = some (.list
              [.str (genPre ++ String.join (resps1.map respText) ++ genSuf),
                .str (genPre ++ String.join (resps2.map respText) ++ genSuf)])) := by
  refine ⟨?_, ?_, ?_, ?_⟩
  · intro hidden parse lpOn resps _
    cases lpOn
    · simp [genN1, Store.get_set_same]
    · simp only [genN1]
      split_ifs <;>
        simp [Store.get_set_ne _ _ _ _ (lpName_ne name), Store.get_set_same]
  · intro r esc id hidden lpOn vs h
    have hk : hasKey st name = true := by simp [hasKey, h]
    cases lpOn
    · simp [genMulti, hk, Store.get_set_same, getListD, h, List.map_map]
    · by_cases hk2 : hasKey st (lpName name) = true
      · simp [genMulti, hk, hk2, Store.get_set_ne _ _ _ _ (lpName_ne name),
          Store.get_set_same, getListD, h, List.map_map]
      · simp [genMulti, hk, hk2, Store.get_set_same, getListD, h, List.map_map]
  · intro r esc id hidden lpOn h
    have hk : hasKey st name = false := by simp [hasKey, h]
    cases lpOn
    · simp [genMulti, hk, h]
    · by_cases hk2 : hasKey st (lpName name) = true
      · simp [genMulti, hk, hk2, Store.get_set_ne _ _ _ _ (lpName_ne name), h]
      · simp [genMulti, hk, hk2, h]
  · intro hidden parse resps1 resps2 h
    have h1 : Store.get (genN1 name hidden parse true false resps1 st).store name
        = some (.list (getListD st name
            ++ [.str (genPre ++ String.join (resps1.map respText) ++ genSuf)])) := by
      simp [genN1, Store.get_set_same]
    have hd : getListD st name = [] := by simp [getListD, h]
    rw [hd, List.nil_append] at h1
    have h2 : getListD (genN1 name hidden parse true false resps1 st).store name
        = [.str (genPre ++ String.join (resps1.map respText) ++ genSuf)] := by
      simp [getListD, h1]
    simp [genN1, Store.get_set_same, getListD_set_list, hd]

/-- C8 counterexample: an n-above-one list-append invocation on an absent
variable stores nothing at all, against the claimed creation of a fresh
one-entry list. -/
theorem ceC8 :
    Store.get (genMulti "v" false true false (⟨[⟨"a", []⟩, ⟨"b", []⟩]⟩ : Response)
        (fun s => s) "i" []).store "v" = none := by
  rfl

/-- Witness for C8: two successive n-equals-one list-append invocations on an
initially absent variable leave a two-entry list in invocation order. -/
theorem thmC8_witness :
    Store.get (genN1 "v" false false true false [(⟨[⟨"x", []⟩]⟩ : Response)]
        (genN1 "v" false false true false [(⟨[⟨"w", []⟩]⟩ : Response)] []).store).store "v"
      = some (.list
          [.str (genPre ++ String.join ([(⟨[⟨"w", []⟩]⟩ : Response)].map respText) ++ genSuf),
            .str (genPre ++ String.join ([(⟨[⟨"x", []⟩]⟩ : Response)].map respText)
              ++ genSuf)]) :=
  (thmC8 "v" []).2.2.2 false false _ _ rfl

/-- C9 (amended): for n equal to one, a gen call with parse and hidden set
fails the assertion of line 184 (the spec's ConfigurationError) during tag
evaluation, and with parse set but hidden unset the generated value is handed
back for re-parsing and recursive execution on the same store; for n above one
the parse flag is silently ignored and the call completes normally. -/
theorem thmC9 (name : String) (st : Store) :
    (∀ listAppend lpOn resps,
      (genN1 name true true listAppend lpOn resps st).result = .configError) ∧
      (∀ listAppend lpOn resps,
        (genN1 name false true listAppend lpOn resps st).result
          = .recurse (genPre ++ String.join (resps.map respText) ++ genSuf)) ∧
      (∀ hidden listAppend lpOn r esc id,
        (genMulti name hidden listAppend lpOn r esc id st).result = .done) := by
  refine ⟨?_, ?_, ?_⟩
  · intro listAppend lpOn resps
    simp [genN1]
  · intro listAppend lpOn resps
    simp [genN1]
  · intro hidden listAppend lpOn r esc id
    simp [genMulti]

/-- C9 counterexample: a gen call with n equal to two, parse and hidden all
set completes normally instead of failing with a configuration error. -/
theorem ceC9 :
    (gen ⟨"v", 2, true, true, false, false⟩ (fun s => s) "i"
        (.whole ⟨[⟨"a", []⟩, ⟨"b", []⟩]⟩) []).map GenOut.result = some .done := by
  rfl

/-- C10 (amended): with logprobs on, an n-equals-one gen call stores the
accumulated per-token records under the companion variable (overwriting
without list append, appending one entry per invocation with it); an
n-above-one call without list append stores one record per completion in call
order; an n-above-one call with list append appends its entry in place only
when the companion variable is already bound, and when it is absent the entry
is lost. -/
theorem thmC10 (name : String) (st : Store) :
    (∀ hidden parse resps, resps ≠ [] →
      Store.get (genN1 name hidden parse false true resps st).store (lpName name)
        = some (strList ((resps.map respLps).flatten))) ∧
      (∀ hidden parse resps, resps ≠ [] →
        Store.get (genN1 name hidden parse true true resps st).store (lpName name)
          = some (.list (getListD st (lpName name)
              ++ [strList ((resps.map respLps).flatten)]))) ∧
      (∀ hidden r esc id,
        Store.get (genMulti name hidden false true r esc id st).store (lpName name)
          = some (.list (r.choices.map (fun c => strList c.lps)))) ∧
      (∀ hidden r esc id vs, Store.get st (lpName name) = some (.list vs) →
        Store.get (genMulti name hidden true true r esc id st).store (lpName name)
          = some (.list (vs ++ [.list (r.choices.map (fun c => strList c.lps))]))) := by
  refine ⟨?_, ?_, ?_, ?_⟩
  · intro hidden parse resps hne
    simp [genN1, hne, Store.get_set_same]
  · intro hidden parse resps hne
    simp [genN1, hne, Store.get_set_same]
  · intro hidden r esc id
    simp [genMulti, Store.get_set_same]
  · intro hidden r esc id vs h
    have hk : hasKey st (lpName name) = true := by simp [hasKey, h]
    simp [genMulti, hk, Store.get_set_same, getListD, h]

/-- C10 counterexample: an n-above-one list-append call with logprobs on and
an absent companion variable stores no log-probability entry at all. -/
theorem ceC10 :
    Store.get (genMulti "v" true true true
        (⟨[⟨"a", ["la"]⟩, ⟨"b", ["lb"]⟩]⟩ : Response) (fun s => s) "i" []).store
      (lpName "v") = none := by
  rfl

/-- Witness for C10 on the per-completion record list of an n-above-one
call. -/
theorem thmC10_witness :
    Store.get (genMulti "v" false true true (⟨[⟨"a", ["la"]⟩]⟩ : Response)
        (fun s => s) "i" [("v_logprobs", Value.list [])]).store (lpName "v")
      = some (.list ([] ++ [.list [strList ["la"]]])) :=
  (thmC10 "v" [("v_logprobs", Value.list [])]).2.2.2 false ⟨[⟨"a", ["la"]⟩]⟩
    (fun s => s) "i" [] rfl

end Guidance
